import Mathlib

/-!
Verification of the retrieval/indexing subsystem and the conversational
orchestrator of the gm_v4 backend, shallowly embedded from
`backend/modules/services/embedding_service.py` and
`backend/modules/routes/ai.py`.

Text is modelled as Lean `String`; Python `str.split()` is modelled by
`pySplit` (split on whitespace runs, dropping empty tokens) and
`' '.join` by `joinWords`.  The MySQL `embeddings` table is modelled as a
list of rows plus a fresh-id counter (`generate_uuid` becomes a counter).
The external Gemini embedding provider is an explicit function parameter;
vectors are lists of integers (the ranking logic is field-agnostic).
-/

namespace GM

/-- Python whitespace test used by `str.split()` (ASCII whitespace). -/
def isPySpace (c : Char) : Bool :=
  c == ' ' || c == '\t' || c == '\n' || c == '\r' || c == '\x0b' || c == '\x0c'

/-- Core of `str.split()`: walk the characters, accumulating the current
word (reversed); whitespace flushes the accumulator. -/
def splitCore : List Char → List Char → List String
  | [], acc => if acc.isEmpty then [] else [String.mk acc.reverse]
  | c :: cs, acc =>
    if isPySpace c then
      if acc.isEmpty then splitCore cs [] else String.mk acc.reverse :: splitCore cs []
    else splitCore cs (c :: acc)

/-- Python `text.split()`: whitespace-separated words, no empty tokens. -/
def pySplit (s : String) : List String := splitCore s.data []

/-- Python `' '.join(words)`. -/
def joinWords : List String → String
  | [] => ""
  | [w] => w
  | w :: ws => w ++ " " ++ joinWords ws

/-- Number of whitespace-separated words of a string. -/
def wordCount (s : String) : Nat := (pySplit s).length

/-- Python `range(0, stop, step)` for a nonnegative `step`
(`step = 0` is an error in Python; modelled as the empty range). -/
def pyRange (stop step : Nat) : List Nat :=
  if step = 0 then [] else List.range' 0 ((stop + step - 1) / step) step

/-- The chunk-collecting loop of `EmbeddingService.chunk_text`:
for each window start `i`, slice `words[i : i + chunk_size]` and keep it
when it has strictly more than 20 words. -/
def chunkLoop (words : List String) (cs : Nat) : List Nat → List (List String)
  | [] => []
  | i :: is =>
    let cw := (words.drop i).take cs
    if 20 < cw.length then cw :: chunkLoop words cs is else chunkLoop words cs is

/-- `EmbeddingService.chunk_text(text, chunk_size, overlap)`:
split into words; a short text is returned whole; otherwise slide a
window of `cs` words advancing by `cs - ov`, keeping windows of more
than 20 words, and re-join each window with single spaces. -/
def chunk_text (text : String) (cs ov : Nat) : List String :=
  let words := pySplit text
  if words.length ≤ cs then [text]
  else (chunkLoop words cs (pyRange words.length (cs - ov))).map joinWords

/-- Metadata values stored in the JSON metadata column. -/
inductive MVal where
  | s (v : String)
  | n (v : Int)
  | b (v : Bool)
deriving DecidableEq

/-- A Python dict with string keys, as an ordered association list. -/
abbrev Meta := List (String × MVal)

/-- First-match lookup in a metadata dict. -/
def mlookup (k : String) : Meta → Option MVal
  | [] => none
  | (k₁, v) :: m => if k₁ = k then some v else mlookup k m

/-- Python `d[k] = v` on a dict: overwrite in place when the key exists,
append otherwise. -/
def dictSet (m : Meta) (k : String) (v : MVal) : Meta :=
  if (mlookup k m).isSome then m.map (fun kv => if kv.1 = k then (k, v) else kv)
  else m ++ [(k, v)]

/-- `EmbeddingService.MODEL_NAME`. -/
def MODEL_NAME : String := "models/gemini-embedding-001"

/-- `EmbeddingService.DIMENSION`. -/
def DIMENSION : Int := 768

/-- The metadata preparation in `save_embedding`: default `None` to an
empty dict, then set `dimension` and `model` unconditionally. -/
def prepare_metadata (metadata : Option Meta) : Meta :=
  dictSet (dictSet (metadata.getD []) "dimension" (MVal.n DIMENSION)) "model" (MVal.s MODEL_NAME)

/-- One row of the `embeddings` table. -/
structure Row where
  id : Nat
  source_type : String
  source_id : String
  chunk_index : Nat
  text_content : String
  embedding_vector : List Int
  metadata : Meta
deriving DecidableEq

/-- The `embeddings` table plus the fresh-id supply
(`generate_uuid` modelled as a counter). -/
structure DB where
  rows : List Row
  nextId : Nat
deriving DecidableEq

/-- `EmbeddingService.save_embedding`: embed the text (external provider
`embed`), generate a fresh id, prepare metadata, and `INSERT` one new
row.  Returns the updated table and the new embedding id. -/
def save_embedding (embed : String → List Int) (db : DB)
    (source_type source_id text : String) (chunk_index : Nat)
    (metadata : Option Meta) : DB × Nat :=
  let vector := embed text
  let embedding_id := db.nextId
  let md := prepare_metadata metadata
  (⟨db.rows ++ [⟨embedding_id, source_type, source_id, chunk_index, text, vector, md⟩],
    db.nextId + 1⟩, embedding_id)

/-- The chunk-saving loop of `vectorize_document`, with storage-failure
injection: `fails i` says the database `INSERT` for chunk `i` raises.
A raised insert adds no row and aborts the loop (the exception
propagates); `some ()` records that an exception escaped. -/
def vecLoop (embed : String → List Int) (fails : Nat → Bool)
    (doc : String) (md : Option Meta) :
    DB → Nat → List String → DB × Option Unit
  | db, _, [] => (db, none)
  | db, i, c :: cs =>
    if fails i then (db, some ())
    else vecLoop embed fails doc md
      (save_embedding embed db "document" doc c i md).1 (i + 1) cs

/-- `EmbeddingService.vectorize_document`: chunk with the default
`chunk_size = 500`, `overlap = 50`, save every chunk in order; an insert
failure propagates as an error, otherwise the chunk count is returned. -/
def vectorize_document (embed : String → List Int) (fails : Nat → Bool)
    (db : DB) (document_id full_text : String) (metadata : Option Meta) :
    DB × Except Unit Nat :=
  let chunks := chunk_text full_text 500 50
  let res := vecLoop embed fails document_id metadata db 0 chunks
  match res.2 with
  | none => (res.1, Except.ok chunks.length)
  | some () => (res.1, Except.error ())

/-! ### Retrieval: `EmbeddingService.search` -/

/-- Dot product of two stored vectors (`np.dot` on equal-length vectors;
the similarity of already-normalized vectors). -/
def dot : List Int → List Int → Int
  | a :: as, b :: bs => a * b + dot as bs
  | _, _ => 0

/-- One entry of the list `search` returns. -/
structure SearchMatch where
  id : Nat
  source_type : String
  source_id : String
  chunk_index : Nat
  text : String
  metadata : Meta
  score : Int
deriving DecidableEq

/-- The SQL scan of `search`: Python's `if source_types:` is falsy for
both `None` and the empty list, in which case no `WHERE` filter is
applied. -/
def scan (store : List Row) (source_types : Option (List String)) : List Row :=
  match source_types with
  | none => store
  | some ts => if ts.isEmpty then store else store.filter (fun r => ts.contains r.source_type)

/-- Build the match record for one scanned row. -/
def toMatch (qv : List Int) (r : Row) : SearchMatch :=
  ⟨r.id, r.source_type, r.source_id, r.chunk_index, r.text_content, r.metadata,
   dot qv r.embedding_vector⟩

/-- The comparator of `matches.sort(key=score, reverse=True)`:
descending by score.  Python's sort is stable; a stable descending sort
is insertion sort with this non-strict comparator. -/
def scoreGe (a b : SearchMatch) : Prop := b.score ≤ a.score

instance : DecidableRel scoreGe := fun a b => inferInstanceAs (Decidable (b.score ≤ a.score))

instance : IsTotal SearchMatch scoreGe := ⟨fun a b => le_total b.score a.score⟩

instance : IsTrans SearchMatch scoreGe := ⟨fun _ _ _ h₁ h₂ => le_trans h₂ h₁⟩

/-- `EmbeddingService.search`: embed the query (external provider),
scan the store with the optional source-type filter, score every row,
sort descending by score (stable), return the first `top_k`. -/
def search (embed : String → List Int) (store : List Row) (query : String)
    (source_types : Option (List String)) (top_k : Nat) : List SearchMatch :=
  let qv := embed query
  let ms := (scan store source_types).map (toMatch qv)
  (ms.insertionSort scoreGe).take top_k

/-! ### Conversation orchestrator: the `/chat` retry loop of `ai.py` -/

/-- A function call requested by the model. -/
structure FnCall where
  name : String
  args : List (String × String)
deriving DecidableEq

/-- One part of the model candidate's content: optional text, optional
function call. -/
structure Part where
  text : Option String
  functionCall : Option FnCall
deriving DecidableEq

/-- One attempt's outcome at the model provider. -/
inductive HttpResp where
  | ok (parts : List Part)
  | rate429
  | netError
deriving DecidableEq

/-- What the endpoint returns to the user (JSON body abstracted to its
message/payload plus the HTTP status). -/
inductive ChatResult where
  | success (text : String) (function_calls : List FnCall) (status : Nat)
  | rateLimited (message : String) (status : Nat)
  | errorResponse (message : String) (status : Nat)
deriving DecidableEq

/-- `text_response` extraction: the first part carrying a `text` key,
defaulting to the empty string. -/
def extractText (parts : List Part) : String :=
  match parts.find? (fun p => p.text.isSome) with
  | some p => p.text.getD ""
  | none => ""

/-- `function_calls` extraction: every part carrying a `functionCall`. -/
def extractCalls (parts : List Part) : List FnCall :=
  parts.filterMap (fun p => p.functionCall)

/-- The retry loop of `ai_chat` (`max_retries = 3`).  `remaining` is the
number of loop iterations left (`3 - attempt`); the returned list is the
sequence of `time.sleep` durations in seconds.  A 429 on a non-final
attempt sleeps `2 ** attempt * 2`; a 429 on the final attempt returns
the rate-limit error without sleeping; a network error sleeps a fixed
2 s on non-final attempts and is turned into the generic 500 error by
the outer `except` when retries are exhausted. -/
def chatLoop (resps : Nat → HttpResp) : Nat → Nat → List Nat → List Nat × ChatResult
  | 0, _, sleeps => (sleeps, ChatResult.errorResponse "Si è verificato un errore. Riprova." 500)
  | remaining + 1, attempt, sleeps =>
    match resps attempt with
    | HttpResp.rate429 =>
      let wait := 2 ^ attempt * 2
      if remaining = 0 then
        (sleeps, ChatResult.rateLimited "Troppe richieste. Aspetta 30 secondi e riprova." 429)
      else chatLoop resps remaining (attempt + 1) (sleeps ++ [wait])
    | HttpResp.ok parts =>
      (sleeps, ChatResult.success (extractText parts) (extractCalls parts) 200)
    | HttpResp.netError =>
      if remaining = 0 then
        (sleeps, ChatResult.errorResponse "Si è verificato un errore. Riprova." 500)
      else chatLoop resps remaining (attempt + 1) (sleeps ++ [2])

/-- The `/chat` endpoint's provider interaction: three attempts starting
at attempt 0 with no sleeps performed yet. -/
def ai_chat (resps : Nat → HttpResp) : List Nat × ChatResult :=
  chatLoop resps 3 0 []

/-- A well-formed word: nonempty and free of whitespace.  Every token
produced by `pySplit` has this shape. -/
def goodWord (w : String) : Prop :=
  w.data ≠ [] ∧ ∀ c ∈ w.data, isPySpace c = false

/-- The word-windows `chunk_text` slides over (before the minimum-size
filter): one slice `words[i : i + cs]` per start index of the Python
`range(0, len(words), step)`. -/
def slidingWindows (words : List String) (cs step : Nat) : List (List String) :=
  (pyRange words.length step).map (fun i => (words.drop i).take cs)

/-- The windows `chunk_text` actually emits: those of more than 20
words. -/
def emittedWindows (words : List String) (cs step : Nat) : List (List String) :=
  (slidingWindows words cs step).filter (fun cw => decide (20 < cw.length))

/-- The start index of the final window of `range(0, n, step)`. -/
def lastWindowStart (n step : Nat) : Nat := step * ((n + step - 1) / step - 1)

/-- Number of rows of the `embeddings` table carrying a given
`(source_type, source_id, chunk_index)` key. -/
def countKey (rows : List Row) (st sid : String) (ci : Nat) : Nat :=
  (rows.filter (fun r => r.source_type == st && r.source_id == sid && r.chunk_index == ci)).length

/-- Concrete text fixture: `k` copies of the word `w` joined by single
spaces. -/
def textW (k : Nat) : String := joinWords (List.replicate k "w")

/-! ### Lemmas: `pySplit` / `joinWords` round trip -/

theorem splitCore_append_nonspace (w : List Char) :
    ∀ (acc rest : List Char), (∀ c ∈ w, isPySpace c = false) →
      splitCore (w ++ rest) acc = splitCore rest (w.reverse ++ acc) := by
  induction w with
  | nil => intro acc rest _; simp
  | cons c w ih =>
    intro acc rest h
    have hc : isPySpace c = false := h c (List.mem_cons_self c w)
    have hw : ∀ c' ∈ w, isPySpace c' = false := fun c' hc' => h c' (List.mem_cons_of_mem c hc')
    simp only [List.cons_append, splitCore, hc, Bool.false_eq_true, if_false]
    rw [List.reverse_cons, List.append_assoc]
    exact ih (c :: acc) rest hw

theorem string_mk_data (s : String) : String.mk s.data = s := rfl

theorem pySplit_joinWords :
    ∀ ws : List String, (∀ w ∈ ws, goodWord w) → pySplit (joinWords ws) = ws := by
  intro ws
  induction ws with
  | nil => intro _; rfl
  | cons w ws ih =>
    intro h
    have hw : goodWord w := h w (List.mem_cons_self w ws)
    have hws : ∀ w' ∈ ws, goodWord w' := fun w' hw' => h w' (List.mem_cons_of_mem w hw')
    cases ws with
    | nil =>
      show splitCore (joinWords [w]).data [] = [w]
      have : (joinWords [w]).data = w.data ++ [] := by simp [joinWords]
      rw [this, splitCore_append_nonspace w.data [] [] hw.2]
      simp only [splitCore, List.append_nil]
      rw [if_neg (by simp [List.isEmpty_iff, hw.1])]
      simp [string_mk_data]
    | cons w₁ ws₁ =>
      show splitCore (joinWords (w :: w₁ :: ws₁)).data [] = w :: w₁ :: ws₁
      have hdata : (joinWords (w :: w₁ :: ws₁)).data
          = w.data ++ (' ' :: (joinWords (w₁ :: ws₁)).data) := by
        show (w ++ " " ++ joinWords (w₁ :: ws₁)).data = _
        rw [String.data_append, String.data_append]
        show w.data ++ [' '] ++ _ = _
        rw [List.append_assoc]
        rfl
      rw [hdata, splitCore_append_nonspace w.data [] _ hw.2]
      simp only [List.append_nil, splitCore]
      rw [if_pos (by decide), if_neg (by simp [List.isEmpty_iff, hw.1])]
      simp only [List.reverse_reverse, string_mk_data]
      exact congrArg (w :: ·) (ih hws)

theorem splitCore_goodWords :
    ∀ (l acc : List Char), (∀ c ∈ acc, isPySpace c = false) →
      ∀ w ∈ splitCore l acc, goodWord w := by
  intro l
  induction l with
  | nil =>
    intro acc hacc w hw
    simp only [splitCore] at hw
    by_cases he : acc.isEmpty
    · rw [if_pos he] at hw; exact absurd hw (List.not_mem_nil w)
    · rw [if_neg he] at hw
      have : w = String.mk acc.reverse := List.mem_singleton.mp hw
      subst this
      refine ⟨?_, ?_⟩
      · simp only [String.mk]
        intro hcon
        exact he (List.isEmpty_iff.mpr (by simpa using congrArg List.reverse hcon))
      · intro c hc
        exact hacc c (List.mem_reverse.mp hc)
  | cons c cs ih =>
    intro acc hacc w hw
    simp only [splitCore] at hw
    by_cases hsp : isPySpace c
    · rw [if_pos hsp] at hw
      by_cases he : acc.isEmpty
      · rw [if_pos he] at hw
        exact ih [] (by intro c' hc'; exact absurd hc' (List.not_mem_nil c')) w hw
      · rw [if_neg he] at hw
        rcases List.mem_cons.mp hw with h₁ | h₂
        · subst h₁
          refine ⟨?_, ?_⟩
          · simp only [String.mk]
            intro hcon
            exact he (List.isEmpty_iff.mpr (by simpa using congrArg List.reverse hcon))
          · intro c' hc'
            exact hacc c' (List.mem_reverse.mp hc')
        · exact ih [] (by intro c' hc'; exact absurd hc' (List.not_mem_nil c')) w h₂
    · rw [if_neg hsp] at hw
      refine ih (c :: acc) ?_ w hw
      intro c' hc'
      rcases List.mem_cons.mp hc' with h₁ | h₂
      · subst h₁; exact Bool.not_eq_true _ ▸ (by simpa using hsp)
      · exact hacc c' h₂

theorem pySplit_goodWords (s : String) : ∀ w ∈ pySplit s, goodWord w :=
  splitCore_goodWords s.data [] (by intro c hc; exact absurd hc (List.not_mem_nil c))

theorem wordCount_joinWords (ws : List String) (h : ∀ w ∈ ws, goodWord w) :
    wordCount (joinWords ws) = ws.length := by
  rw [wordCount, pySplit_joinWords ws h]

theorem pySplit_textW (k : Nat) : pySplit (textW k) = List.replicate k "w" := by
  refine pySplit_joinWords _ ?_
  intro w hw
  rw [List.eq_of_mem_replicate hw]
  exact ⟨by decide, by decide⟩

/-! ### Lemmas: chunking structure -/

theorem chunkLoop_eq (words : List String) (cs : Nat) :
    ∀ is : List Nat, chunkLoop words cs is
      = (is.map (fun i => (words.drop i).take cs)).filter
          (fun cw => decide (20 < cw.length)) := by
  intro is
  induction is with
  | nil => rfl
  | cons i is ih =>
    simp only [chunkLoop, List.map_cons, List.filter_cons]
    by_cases h : 20 < ((words.drop i).take cs).length
    · rw [if_pos h, if_pos (by simpa using h), ih]
    · rw [if_neg h, if_neg (by simpa using h), ih]

theorem chunk_text_long (text : String) (cs ov : Nat)
    (h : cs < (pySplit text).length) :
    chunk_text text cs ov
      = ((((pyRange (pySplit text).length (cs - ov))).map
            (fun i => ((pySplit text).drop i).take cs)).filter
          (fun cw => decide (20 < cw.length))).map joinWords := by
  simp only [chunk_text]
  rw [if_neg (by omega), chunkLoop_eq]

theorem ceilDiv_facts (n step : Nat) (hstep : 0 < step) (hn : 0 < n) :
    0 < (n + step - 1) / step ∧ n ≤ step * ((n + step - 1) / step) ∧
      step * ((n + step - 1) / step - 1) < n := by
  have key : ∀ q r : Nat, step * q + r = n + step - 1 → r < step →
      0 < q ∧ n ≤ step * q ∧ step * (q - 1) < n := by
    intro q r h1 h2
    have hq0 : 0 < q := by
      rcases Nat.eq_zero_or_pos q with h0 | h0
      · subst h0; simp only [Nat.mul_zero, Nat.zero_add] at h1; omega
      · exact h0
    obtain ⟨q₀, rfl⟩ : ∃ q₀, q = q₀ + 1 := ⟨q - 1, by omega⟩
    have hmul : step * (q₀ + 1) = step * q₀ + step := by ring
    rw [hmul] at h1
    refine ⟨hq0, ?_, ?_⟩
    · rw [hmul]; omega
    · simp only [Nat.add_sub_cancel]; omega
  exact key _ _ (Nat.div_add_mod (n + step - 1) step) (Nat.mod_lt _ hstep)

theorem slice_drop_overlap (words : List String) (i cs ov : Nat) (hov : ov ≤ cs) :
    ((words.drop i).take cs).drop (cs - ov)
      = ((words.drop (i + (cs - ov))).take cs).take ov := by
  rw [List.drop_take, List.drop_drop, List.take_take]
  have h₁ : cs - (cs - ov) = ov := by omega
  have h₂ : min ov cs = ov := by omega
  rw [h₁, h₂]

theorem goodWord_of_mem_slice (text : String) (i cs : Nat) :
    ∀ w ∈ ((pySplit text).drop i).take cs, goodWord w := by
  intro w hw
  exact pySplit_goodWords text w (List.mem_of_mem_drop (List.mem_of_mem_take hw))

theorem chunk_textW920 :
    chunk_text (textW 920) 500 50
      = [joinWords (List.replicate 500 "w"), joinWords (List.replicate 470 "w")] := by
  have h1 : pySplit (textW 920) = List.replicate 920 "w" := pySplit_textW 920
  simp only [chunk_text, h1, List.length_replicate]
  rw [if_neg (by norm_num)]
  have h2 : pyRange 920 (500 - 50) = [0, 450, 900] := by decide
  rw [h2]
  simp only [chunkLoop, List.drop_replicate, List.take_replicate, List.length_replicate]
  norm_num

/-! ### Lemmas: stability of the descending sort in `search` -/

theorem filter_score_orderedInsert (x : SearchMatch) (s : List SearchMatch) (c : Int) :
    (List.orderedInsert scoreGe x s).filter (fun m => decide (m.score = c))
      = if x.score = c then x :: s.filter (fun m => decide (m.score = c))
        else s.filter (fun m => decide (m.score = c)) := by
  rw [List.orderedInsert_eq_take_drop, List.filter_append]
  have hsplit : (s.takeWhile fun b => decide ¬scoreGe x b).filter (fun m => decide (m.score = c))
      ++ (s.dropWhile fun b => decide ¬scoreGe x b).filter (fun m => decide (m.score = c))
      = s.filter (fun m => decide (m.score = c)) := by
    rw [← List.filter_append, List.takeWhile_append_dropWhile]
  by_cases hx : x.score = c
  · rw [if_pos hx]
    have htw : (s.takeWhile fun b => decide ¬scoreGe x b).filter
        (fun m => decide (m.score = c)) = [] := by
      rw [List.filter_eq_nil_iff]
      intro a ha
      have h₁ := List.mem_takeWhile_imp ha
      simp only [scoreGe, decide_eq_true_eq, Decidable.not_not] at h₁
      simp only [decide_eq_true_eq]
      omega
    rw [htw, List.nil_append, List.filter_cons, if_pos (by simpa using hx)]
    rw [← hsplit, htw, List.nil_append]
  · rw [if_neg hx]
    rw [List.filter_cons, if_neg (by simpa using hx)]
    exact hsplit

theorem filter_score_insertionSort (l : List SearchMatch) (c : Int) :
    (l.insertionSort scoreGe).filter (fun m => decide (m.score = c))
      = l.filter (fun m => decide (m.score = c)) := by
  induction l with
  | nil => rfl
  | cons x l ih =>
    simp only [List.insertionSort]
    rw [filter_score_orderedInsert, List.filter_cons]
    by_cases hx : x.score = c
    · rw [if_pos hx, if_pos (by simpa using hx), ih]
    · rw [if_neg hx, if_neg (by simpa using hx), ih]

/-! ### Lemmas: dict-set semantics of the metadata preparation -/

theorem mlookup_map_set (k : String) (v : MVal) :
    ∀ m : Meta, (mlookup k m).isSome = true →
      mlookup k (m.map (fun kv => if kv.1 = k then (k, v) else kv)) = some v := by
  intro m
  induction m with
  | nil => intro h; simp [mlookup] at h
  | cons kv m ih =>
    intro h
    obtain ⟨k₁, v₁⟩ := kv
    by_cases hk : k₁ = k
    · subst hk
      have hhead : (if ((k₁, v₁) : String × MVal).1 = k₁ then (k₁, v) else (k₁, v₁))
          = (k₁, v) := by simp
      rw [List.map_cons, hhead]
      simp [mlookup]
    · simp only [mlookup, if_neg hk] at h
      have hhead : (if ((k₁, v₁) : String × MVal).1 = k then (k, v) else (k₁, v₁))
          = (k₁, v₁) := by simp [hk]
      rw [List.map_cons, hhead]
      simp only [mlookup, if_neg hk]
      exact ih h

theorem mlookup_append_single (k : String) (v : MVal) :
    ∀ m : Meta, mlookup k m = none → mlookup k (m ++ [(k, v)]) = some v := by
  intro m
  induction m with
  | nil => intro _; simp [mlookup]
  | cons kv m ih =>
    intro h
    obtain ⟨k₁, v₁⟩ := kv
    by_cases hk : k₁ = k
    · simp only [mlookup, if_pos hk] at h; exact absurd h (by simp)
    · simp only [mlookup, if_neg hk] at h
      simpa [mlookup, hk] using ih h

theorem mlookup_map_set_other (k k' : String) (v : MVal) (h : k' ≠ k) :
    ∀ m : Meta, mlookup k' (m.map (fun kv => if kv.1 = k then (k, v) else kv)) = mlookup k' m := by
  intro m
  induction m with
  | nil => rfl
  | cons kv m ih =>
    obtain ⟨k₁, v₁⟩ := kv
    by_cases hk : k₁ = k
    · subst hk
      have hne : ¬k₁ = k' := fun hh => h hh.symm
      have hhead : (if ((k₁, v₁) : String × MVal).1 = k₁ then (k₁, v) else (k₁, v₁))
          = (k₁, v) := by simp
      rw [List.map_cons, hhead]
      simp only [mlookup, if_neg hne]
      exact ih
    · have hhead : (if ((k₁, v₁) : String × MVal).1 = k then (k, v) else (k₁, v₁))
          = (k₁, v₁) := by simp [hk]
      rw [List.map_cons, hhead]
      by_cases hk' : k₁ = k'
      · simp only [mlookup, if_pos hk']
      · simp only [mlookup, if_neg hk']
        exact ih

theorem mlookup_append_single_other (k k' : String) (v : MVal) (h : k' ≠ k) :
    ∀ m : Meta, mlookup k' (m ++ [(k, v)]) = mlookup k' m := by
  intro m
  induction m with
  | nil =>
    have hne : ¬k = k' := fun hh => h hh.symm
    simp [mlookup, hne]
  | cons kv m ih =>
    obtain ⟨k₁, v₁⟩ := kv
    by_cases hk' : k₁ = k'
    · subst hk'
      simp [mlookup]
    · simpa [mlookup, hk'] using ih

theorem mlookup_dictSet_self (m : Meta) (k : String) (v : MVal) :
    mlookup k (dictSet m k v) = some v := by
  unfold dictSet
  by_cases h : (mlookup k m).isSome
  · rw [if_pos h]; exact mlookup_map_set k v m h
  · rw [if_neg h]
    exact mlookup_append_single k v m (Option.not_isSome_iff_eq_none.mp h)

theorem mlookup_dictSet_other (m : Meta) (k k' : String) (v : MVal) (h : k' ≠ k) :
    mlookup k' (dictSet m k v) = mlookup k' m := by
  unfold dictSet
  by_cases hs : (mlookup k m).isSome
  · rw [if_pos hs]; exact mlookup_map_set_other k k' v h m
  · rw [if_neg hs]; exact mlookup_append_single_other k k' v h m

/-! ### Lemmas: the chunk-saving loop under an injected insert failure -/

theorem vecLoop_fail_aux (embed : String → List Int) (fails : Nat → Bool)
    (doc : String) (md : Option Meta) :
    ∀ (chunks : List String) (db : DB) (i₀ j : Nat),
      j < chunks.length → fails (i₀ + j) = true → (∀ j', j' < j → fails (i₀ + j') = false) →
      (vecLoop embed fails doc md db i₀ chunks).2 = some () ∧
      ∃ added : List Row,
        (vecLoop embed fails doc md db i₀ chunks).1.rows = db.rows ++ added ∧
        added.length = j ∧
        ∀ r ∈ added, r.source_id = doc ∧ r.source_type = "document" := by
  intro chunks
  induction chunks with
  | nil => intro db i₀ j hj _ _; exact absurd hj (by simp)
  | cons c cs ih =>
    intro db i₀ j hj hfail hmin
    cases j with
    | zero =>
      simp only [Nat.add_zero] at hfail
      refine ⟨by simp [vecLoop, hfail], [], by simp [vecLoop, hfail], rfl, ?_⟩
      intro r hr; exact absurd hr (List.not_mem_nil r)
    | succ j₀ =>
      have h0 : fails i₀ = false := by
        have := hmin 0 (Nat.succ_pos j₀)
        simpa using this
      simp only [vecLoop, h0, Bool.false_eq_true, if_false]
      have hj' : j₀ < cs.length := by simpa using hj
      have hfail' : fails (i₀ + 1 + j₀) = true := by
        have : i₀ + 1 + j₀ = i₀ + (j₀ + 1) := by omega
        rw [this]; exact hfail
      have hmin' : ∀ j', j' < j₀ → fails (i₀ + 1 + j') = false := by
        intro j' hj'
        have : i₀ + 1 + j' = i₀ + (j' + 1) := by omega
        rw [this]; exact hmin (j' + 1) (by omega)
      obtain ⟨h₂, added, hrows, hlen, hmem⟩ :=
        ih (save_embedding embed db "document" doc c i₀ md).1 (i₀ + 1) j₀ hj' hfail' hmin'
      refine ⟨h₂, ⟨db.nextId, "document", doc, i₀, c, embed c, prepare_metadata md⟩ :: added,
        ?_, by simpa using hlen, ?_⟩
      · rw [hrows]
        simp [save_embedding]
      · intro r hr
        rcases List.mem_cons.mp hr with h₁ | h₁
        · subst h₁; exact ⟨rfl, rfl⟩
        · exact hmem r h₁

/-! ### Claim theorems -/

/-- Claim C6: for every input text whose word count is at most
`chunk_size`, `chunk_text` returns exactly the one-element sequence
containing the whole input text unchanged. -/
theorem chunk_text_short_input (text : String) (cs ov : Nat)
    (h : wordCount text ≤ cs) : chunk_text text cs ov = [text] := by
  have h' : (pySplit text).length ≤ cs := h
  simp only [chunk_text]
  rw [if_pos h']

/-- Claim C6 witness: a three-word text with the default
`chunk_size = 500` is returned whole. -/
theorem c6_witness : wordCount (textW 3) ≤ 500 ∧ chunk_text (textW 3) 500 50 = [textW 3] :=
  ⟨by decide, chunk_text_short_input (textW 3) 500 50 (by decide)⟩

/-- Claim C2 (amended): `save_embedding` is not an upsert — every call
performs a plain `INSERT` of a brand-new row under a fresh id, so a
second call with the same `(source_type, source_id, chunk_index)` key
and the same text and metadata leaves two rows carrying that key. -/
theorem save_embedding_inserts_new_row (embed : String → List Int) (db : DB)
    (st sid text : String) (ci : Nat) (md : Option Meta) :
    countKey ((save_embedding embed
          (save_embedding embed db st sid text ci md).1 st sid text ci md).1).rows st sid ci
        = countKey db.rows st sid ci + 2 ∧
    ((save_embedding embed
          (save_embedding embed db st sid text ci md).1 st sid text ci md).1).rows.length
        = db.rows.length + 2 := by
  constructor
  · simp [save_embedding, countKey, List.filter_append]
  · simp [save_embedding]

/-- Claim C2 counterexample: two calls of `save_embedding` with the
identical key `("document", "d1", 0)` and identical text, vector and
metadata leave two rows for that key, and the store after the second
call differs from the store after the first — the operation is not
idempotent. -/
theorem c2_counterexample :
    countKey ((save_embedding (fun _ => [1])
          (save_embedding (fun _ => [1]) ⟨[], 0⟩ "document" "d1" "hello" 0 none).1
          "document" "d1" "hello" 0 none).1).rows "document" "d1" 0 = 2 ∧
    (save_embedding (fun _ => [1])
          (save_embedding (fun _ => [1]) ⟨[], 0⟩ "document" "d1" "hello" 0 none).1
          "document" "d1" "hello" 0 none).1
      ≠ (save_embedding (fun _ => [1]) ⟨[], 0⟩ "document" "d1" "hello" 0 none).1 := by
  exact ⟨by decide, by decide⟩

/-- Claim C10: every row written by `save_embedding` carries metadata
with `dimension = 768` and `model = "models/gemini-embedding-001"`;
both keys are set unconditionally (overwriting caller values), and every
other caller-supplied key is preserved. -/
theorem save_embedding_metadata_keys (embed : String → List Int) (db : DB)
    (st sid text : String) (ci : Nat) (md : Option Meta) :
    (save_embedding embed db st sid text ci md).1.rows
        = db.rows ++ [⟨db.nextId, st, sid, ci, text, embed text, prepare_metadata md⟩] ∧
    mlookup "dimension" (prepare_metadata md) = some (MVal.n 768) ∧
    mlookup "model" (prepare_metadata md) = some (MVal.s "models/gemini-embedding-001") ∧
    (∀ k, k ≠ "dimension" → k ≠ "model" →
      mlookup k (prepare_metadata md) = mlookup k (md.getD [])) := by
  refine ⟨rfl, ?_, ?_, ?_⟩
  · unfold prepare_metadata
    rw [mlookup_dictSet_other _ _ _ _ (by decide), mlookup_dictSet_self]
    rfl
  · unfold prepare_metadata
    rw [mlookup_dictSet_self]
    rfl
  · intro k h₁ h₂
    unfold prepare_metadata
    rw [mlookup_dictSet_other _ _ _ _ h₂, mlookup_dictSet_other _ _ _ _ h₁]

/-- Claim C10 witness: with caller metadata
`{foo: "bar", dimension: 5}` the written metadata has `dimension`
overwritten to 768, `model` set, and `foo` preserved. -/
theorem c10_witness :
    mlookup "dimension" (prepare_metadata (some [("foo", MVal.s "bar"), ("dimension", MVal.n 5)]))
        = some (MVal.n 768) ∧
    mlookup "model" (prepare_metadata (some [("foo", MVal.s "bar"), ("dimension", MVal.n 5)]))
        = some (MVal.s "models/gemini-embedding-001") ∧
    mlookup "foo" (prepare_metadata (some [("foo", MVal.s "bar"), ("dimension", MVal.n 5)]))
        = some (MVal.s "bar") := by
  have h := save_embedding_metadata_keys (fun _ => [1]) ⟨[], 0⟩ "document" "d" "t" 0
    (some [("foo", MVal.s "bar"), ("dimension", MVal.n 5)])
  refine ⟨h.2.1, h.2.2.1, ?_⟩
  have h₃ := h.2.2.2 "foo" (by decide) (by decide)
  rw [h₃]
  decide

/-- Claim C3 (amended): when the model's parts carry no text, the
endpoint returns exactly the empty reply text alongside the function
calls — no confirmation is synthesized. -/
theorem ai_chat_no_text_reply (resps : Nat → HttpResp) (parts : List Part)
    (h₀ : resps 0 = HttpResp.ok parts) (hno : ∀ p ∈ parts, p.text = none) :
    (ai_chat resps).2 = ChatResult.success "" (extractCalls parts) 200 := by
  have hext : extractText parts = "" := by
    unfold extractText
    have hfind : parts.find? (fun p => p.text.isSome) = none := by
      rw [List.find?_eq_none]
      intro p hp
      simp [hno p hp]
    rw [hfind]
  show (chatLoop resps 3 0 []).2 = _
  simp [chatLoop, h₀, hext]

/-- Claim C3 witness: a response consisting of a single
`save_and_close_event` call and no text yields the empty reply. -/
theorem c3_witness :
    (ai_chat (fun _ => HttpResp.ok [⟨none, some ⟨"save_and_close_event", []⟩⟩])).2
      = ChatResult.success "" [⟨"save_and_close_event", []⟩] 200 := by
  have h := ai_chat_no_text_reply (fun _ => HttpResp.ok [⟨none, some ⟨"save_and_close_event", []⟩⟩])
    [⟨none, some ⟨"save_and_close_event", []⟩⟩] rfl
    (by intro p hp; rw [List.mem_singleton.mp hp])
  simpa [extractCalls] using h

/-- Claim C3 counterexample: the model requests an action
(`update_event_details`) and produces no reply text, yet the endpoint's
returned text is the empty string — the claimed non-empty synthesized
confirmation does not exist. -/
theorem c3_counterexample :
    (ai_chat (fun _ => HttpResp.ok [⟨none, some ⟨"update_event_details", [("title", "Palestra")]⟩⟩])).2
        = ChatResult.success "" [⟨"update_event_details", [("title", "Palestra")]⟩] 200 ∧
    [FnCall.mk "update_event_details" [("title", "Palestra")]] ≠ ([] : List FnCall) := by
  exact ⟨by decide, by decide⟩

/-- Claim C5 (amended): with every attempt answered by HTTP 429 the
endpoint performs exactly 3 attempts, sleeping 2 s and then 4 s between
them (the 8 s backoff computed for the final attempt never elapses:
the handler returns instead of sleeping), and returns the dedicated
rate-limit error with status 429, distinct from the generic provider
failure. -/
theorem ai_chat_rate_limited_retries (resps : Nat → HttpResp)
    (h : ∀ a, a < 3 → resps a = HttpResp.rate429) :
    ai_chat resps
        = ([2, 4], ChatResult.rateLimited "Troppe richieste. Aspetta 30 secondi e riprova." 429) ∧
    (ai_chat resps).2 ≠ (ai_chat (fun _ => HttpResp.netError)).2 := by
  have h₀ := h 0 (by norm_num)
  have h₁ := h 1 (by norm_num)
  have h₂ := h 2 (by norm_num)
  have hmain : ai_chat resps
      = ([2, 4], ChatResult.rateLimited "Troppe richieste. Aspetta 30 secondi e riprova." 429) := by
    show chatLoop resps 3 0 [] = _
    simp [chatLoop, h₀, h₁, h₂]
  refine ⟨hmain, ?_⟩
  rw [hmain]
  decide

/-- Claim C5 witness: the all-429 scenario instantiated. -/
theorem c5_witness :
    ai_chat (fun _ => HttpResp.rate429)
      = ([2, 4], ChatResult.rateLimited "Troppe richieste. Aspetta 30 secondi e riprova." 429) :=
  (ai_chat_rate_limited_retries (fun _ => HttpResp.rate429) (fun _ _ => rfl)).1

/-- Claim C5 counterexample: under three consecutive 429 responses the
recorded sleep sequence is `[2, 4]`, not the claimed `[2, 4, 8]` — the
8-second wait never happens, although the final result is the
rate-limited 429 error. -/
theorem c5_counterexample :
    (ai_chat (fun _ => HttpResp.rate429)).1 = [2, 4] ∧
    (ai_chat (fun _ => HttpResp.rate429)).1 ≠ [2, 4, 8] ∧
    (ai_chat (fun _ => HttpResp.rate429)).2
      = ChatResult.rateLimited "Troppe richieste. Aspetta 30 secondi e riprova." 429 := by
  exact ⟨by decide, by decide, by decide⟩

/-- Claim C1 (amended): when the database insert for chunk `j` of a
document fails (and earlier inserts succeeded), `vectorize_document`
returns an error — the whole vectorization is treated as failed — but
the `j` chunk rows saved before the failure remain in the store: the
partial set of chunks is not rolled back. -/
theorem vectorize_document_partial (embed : String → List Int) (fails : Nat → Bool)
    (db : DB) (doc text : String) (md : Option Meta) (j : Nat)
    (hj : j < (chunk_text text 500 50).length)
    (hfail : fails j = true) (hmin : ∀ j', j' < j → fails j' = false) :
    (vectorize_document embed fails db doc text md).2 = Except.error () ∧
    (vectorize_document embed fails db doc text md).1.rows.length = db.rows.length + j ∧
    (vectorize_document embed fails db doc text md).1.rows.take db.rows.length = db.rows ∧
    ∀ r ∈ (vectorize_document embed fails db doc text md).1.rows.drop db.rows.length,
      r.source_id = doc ∧ r.source_type = "document" := by
  obtain ⟨h₂, added, hrows, hlen, hmem⟩ :=
    vecLoop_fail_aux embed fails doc md (chunk_text text 500 50) db 0 j hj
      (by simpa using hfail) (by intro j' hj'; simpa using hmin j' hj')
  have hveq : vectorize_document embed fails db doc text md
      = ((vecLoop embed fails doc md db 0 (chunk_text text 500 50)).1, Except.error ()) := by
    simp only [vectorize_document]
    rw [h₂]
  rw [hveq]
  refine ⟨rfl, ?_, ?_, ?_⟩
  · rw [hrows]; simp [hlen]
  · rw [hrows, List.take_left]
  · rw [hrows, List.drop_left]
    exact hmem

/-- Claim C1 witness: the amended statement instantiated on a 920-word
document (two chunks) whose second insert fails. -/
theorem c1_witness :
    (vectorize_document (fun _ => [1]) (fun i => i == 1) ⟨[], 0⟩ "dd" (textW 920) none).2
        = Except.error () ∧
    (vectorize_document (fun _ => [1]) (fun i => i == 1) ⟨[], 0⟩ "dd" (textW 920) none).1.rows.length
        = (DB.mk [] 0).rows.length + 1 := by
  have h := vectorize_document_partial (fun _ => [1]) (fun i => i == 1) ⟨[], 0⟩ "dd" (textW 920)
    none 1 (by rw [chunk_textW920]; norm_num) rfl
    (by intro j' hj'; rw [Nat.lt_one_iff.mp hj']; rfl)
  exact ⟨h.1, h.2.1⟩

/-- Claim C1 counterexample: a 920-word document chunks into two pieces;
with the second insert failing, `vectorize_document` raises, yet the
store is left holding one of the two chunk rows for the document — a
partial, silently incomplete set remains visible to later searches. -/
theorem c1_counterexample :
    (chunk_text (textW 920) 500 50).length = 2 ∧
    (vectorize_document (fun _ => [1]) (fun i => i == 1) ⟨[], 0⟩ "d" (textW 920) none).2
        = Except.error () ∧
    (vectorize_document (fun _ => [1]) (fun i => i == 1) ⟨[], 0⟩ "d" (textW 920) none).1.rows.length
        = 1 ∧
    (vectorize_document (fun _ => [1]) (fun i => i == 1) ⟨[], 0⟩ "d" (textW 920) none).1.rows.map
        (fun r => r.source_id) = ["d"] := by
  refine ⟨by rw [chunk_textW920]; rfl, ?_, ?_, ?_⟩ <;>
    (simp only [vectorize_document, chunk_textW920]; rfl)

/-- Claim C4: `search` returns the scanned rows' matches sorted in
non-increasing score order by a stable sort (ties keep scan order: for
every score value, the matches carrying it appear exactly as in the
scan), returns at most `top_k` results and at most as many as pass the
source-type filter, and returns the empty sequence on an empty or fully
filtered-out store. -/
theorem search_ranking_spec (embed : String → List Int) (store : List Row)
    (q : String) (st : Option (List String)) (k : Nat) :
    List.Sorted scoreGe (search embed store q st k) ∧
    (search embed store q st k).length ≤ k ∧
    (search embed store q st k).length ≤ (scan store st).length ∧
    (scan store st = [] → search embed store q st k = []) ∧
    search embed store q st k
      = (((scan store st).map (toMatch (embed q))).insertionSort scoreGe).take k ∧
    (∀ c : Int,
      ((((scan store st).map (toMatch (embed q))).insertionSort scoreGe).filter
          (fun m => decide (m.score = c)))
        = ((scan store st).map (toMatch (embed q))).filter (fun m => decide (m.score = c))) := by
  refine ⟨?_, ?_, ?_, ?_, rfl, fun c => filter_score_insertionSort _ c⟩
  · exact List.Pairwise.sublist (List.take_sublist k _) (List.sorted_insertionSort scoreGe _)
  · show (List.take k _).length ≤ k
    rw [List.length_take]
    exact min_le_left _ _
  · show (List.take k (((scan store st).map (toMatch (embed q))).insertionSort scoreGe)).length
        ≤ (scan store st).length
    rw [List.length_take, List.length_insertionSort, List.length_map]
    exact min_le_right _ _
  · intro h
    simp [search, h]

/-- Claim C4 witness: on an empty (fully filtered-out) store, `search`
returns the empty sequence, and tie stability holds at score 0. -/
theorem c4_witness :
    search (fun _ => [1]) [] "q" (some ["document"]) 3 = [] ∧
    ((((scan [] (some ["document"])).map (toMatch ((fun _ : String => [(1 : Int)]) "q"))).insertionSort
          scoreGe).filter (fun m => decide (m.score = 0)))
      = ((scan [] (some ["document"])).map
          (toMatch ((fun _ : String => [(1 : Int)]) "q"))).filter (fun m => decide (m.score = 0)) := by
  have h := search_ranking_spec (fun _ => [1]) [] "q" (some ["document"]) 3
  exact ⟨h.2.2.2.1 rfl, h.2.2.2.2.2 0⟩

/-- Claim C7 (amended): for a text longer than the window, `chunk_text`
slides windows of `cs` words advancing by `cs - ov` and emits exactly
the windows of MORE than 20 words; in particular the trailing fragment
(the final window, shorter than a full stride past the end) is emitted
if and only if it has strictly more than 20 words — a fragment of
exactly 20 words is dropped. -/
theorem chunk_text_sliding_tail (text : String) (cs ov : Nat)
    (hov : ov < cs) (hlong : cs < (pySplit text).length)
    (tailFrag : List String)
    (htail : tailFrag = (pySplit text).drop (lastWindowStart (pySplit text).length (cs - ov))) :
    chunk_text text cs ov = (emittedWindows (pySplit text) cs (cs - ov)).map joinWords ∧
    lastWindowStart (pySplit text).length (cs - ov) < (pySplit text).length ∧
    (pySplit text).length - lastWindowStart (pySplit text).length (cs - ov) ≤ cs ∧
    (tailFrag ∈ emittedWindows (pySplit text) cs (cs - ov) ↔ 20 < tailFrag.length) ∧
    (20 < tailFrag.length → joinWords tailFrag ∈ chunk_text text cs ov) ∧
    wordCount (joinWords tailFrag) = tailFrag.length := by
  have hstep : 0 < cs - ov := by omega
  have hn : 0 < (pySplit text).length := by omega
  obtain ⟨hq0, hle, hlt⟩ := ceilDiv_facts (pySplit text).length (cs - ov) hstep hn
  obtain ⟨q₀, hqe⟩ : ∃ q₀, ((pySplit text).length + (cs - ov) - 1) / (cs - ov) = q₀ + 1 :=
    ⟨((pySplit text).length + (cs - ov) - 1) / (cs - ov) - 1, by omega⟩
  have hW : lastWindowStart (pySplit text).length (cs - ov) = (cs - ov) * q₀ := by
    unfold lastWindowStart
    rw [hqe]
    simp
  have hle' : (pySplit text).length ≤ (cs - ov) * q₀ + (cs - ov) := by
    rw [hqe] at hle
    calc (pySplit text).length ≤ (cs - ov) * (q₀ + 1) := hle
    _ = (cs - ov) * q₀ + (cs - ov) := by ring
  have hlt' : (cs - ov) * q₀ < (pySplit text).length := by
    rw [hqe] at hlt
    simpa using hlt
  have hWlt : lastWindowStart (pySplit text).length (cs - ov) < (pySplit text).length := by
    rw [hW]; exact hlt'
  have hWle : (pySplit text).length - lastWindowStart (pySplit text).length (cs - ov) ≤ cs := by
    rw [hW]; omega
  have htake : ((pySplit text).drop (lastWindowStart (pySplit text).length (cs - ov))).take cs
      = tailFrag := by
    rw [htail]
    apply List.take_of_length_le
    rw [List.length_drop]
    omega
  have hmemrange : lastWindowStart (pySplit text).length (cs - ov)
      ∈ pyRange (pySplit text).length (cs - ov) := by
    rw [pyRange, if_neg (by omega)]
    refine List.mem_range'.mpr ⟨q₀, ?_, ?_⟩
    · rw [hqe]; omega
    · rw [hW]; omega
  have hmemwin : tailFrag ∈ slidingWindows (pySplit text) cs (cs - ov) :=
    List.mem_map.mpr ⟨lastWindowStart (pySplit text).length (cs - ov), hmemrange, htake⟩
  have hstruct : chunk_text text cs ov = (emittedWindows (pySplit text) cs (cs - ov)).map joinWords :=
    chunk_text_long text cs ov hlong
  have hiff : tailFrag ∈ emittedWindows (pySplit text) cs (cs - ov) ↔ 20 < tailFrag.length := by
    rw [emittedWindows, List.mem_filter]
    constructor
    · intro h; simpa using h.2
    · intro h; exact ⟨hmemwin, by simpa using h⟩
  refine ⟨hstruct, hWlt, hWle, hiff, ?_, ?_⟩
  · intro h20
    rw [hstruct]
    exact List.mem_map_of_mem joinWords (hiff.mpr h20)
  · refine wordCount_joinWords tailFrag ?_
    intro w hw
    rw [htail] at hw
    exact pySplit_goodWords text w (List.mem_of_mem_drop hw)

/-- Claim C7 witness: a 47-word text with `chunk_size = 25`,
`overlap = 0` has a 22-word trailing fragment, which is emitted. -/
theorem c7_witness :
    joinWords ((pySplit (textW 47)).drop (lastWindowStart (pySplit (textW 47)).length (25 - 0)))
      ∈ chunk_text (textW 47) 25 0 := by
  have h := chunk_text_sliding_tail (textW 47) 25 0 (by norm_num)
    (by rw [pySplit_textW]; decide)
    ((pySplit (textW 47)).drop (lastWindowStart (pySplit (textW 47)).length (25 - 0))) rfl
  exact h.2.2.2.2.1 (by rw [pySplit_textW]; decide)

/-- Claim C7 counterexample: a 45-word text with `chunk_size = 25`,
`overlap = 0` has a trailing fragment of exactly 20 words; the claim
says a fragment of at least 20 words is emitted, but `chunk_text`
emits only the first window and drops the 20-word fragment. -/
theorem c7_counterexample :
    wordCount (joinWords ((pySplit (textW 45)).drop 25)) = 20 ∧
    chunk_text (textW 45) 25 0 = [joinWords (List.replicate 25 "w")] ∧
    joinWords ((pySplit (textW 45)).drop 25) ∉ chunk_text (textW 45) 25 0 := by
  exact ⟨by decide, by decide, by decide⟩

/-- Claim C9 (amended): for a text longer than the window, the emitted
chunks are exactly the word-windows of more than 20 words; a window
whose end lies within the text has exactly `chunk_size` words (so only
trailing truncated windows can be shorter); dropping the first
`cs - ov` words of a window yields the first `ov` words of the next
window (the overlap region — exactly `overlap` words except for a
shorter trailing window); and every emitted chunk has strictly more
than 20 words and at most `chunk_size` words. -/
theorem chunk_text_window_structure (text : String) (cs ov : Nat)
    (hov : ov < cs) (hlong : cs < (pySplit text).length) :
    chunk_text text cs ov = (emittedWindows (pySplit text) cs (cs - ov)).map joinWords ∧
    (∀ i ∈ pyRange (pySplit text).length (cs - ov),
      i + cs ≤ (pySplit text).length → (((pySplit text).drop i).take cs).length = cs) ∧
    (∀ i : Nat, (((pySplit text).drop i).take cs).drop (cs - ov)
      = (((pySplit text).drop (i + (cs - ov))).take cs).take ov) ∧
    (∀ w ∈ emittedWindows (pySplit text) cs (cs - ov),
      20 < w.length ∧ w.length ≤ cs ∧ wordCount (joinWords w) = w.length) := by
  refine ⟨chunk_text_long text cs ov hlong, ?_, ?_, ?_⟩
  · intro i _ hend
    rw [List.length_take, List.length_drop]
    omega
  · intro i
    exact slice_drop_overlap (pySplit text) i cs ov (by omega)
  · intro w hw
    obtain ⟨hwin, hp⟩ := List.mem_filter.mp hw
    obtain ⟨i, _, hslice⟩ := List.mem_map.mp hwin
    refine ⟨by simpa using hp, ?_, ?_⟩
    · rw [← hslice, List.length_take]
      exact min_le_left _ _
    · refine wordCount_joinWords w ?_
      intro x hx
      rw [← hslice] at hx
      exact goodWord_of_mem_slice text i cs x hx

/-- Claim C9 witness: the amended statement instantiated on a 32-word
text with `chunk_size = 30`, `overlap = 25`: the first window (which
ends within the text) has exactly 30 words. -/
theorem c9_witness :
    (((pySplit (textW 32)).drop 0).take 30).length = 30 := by
  have h := chunk_text_window_structure (textW 32) 30 25 (by norm_num)
    (by rw [pySplit_textW]; decide)
  exact h.2.1 0 (by rw [pySplit_textW]; decide) (by rw [pySplit_textW]; decide)

/-- Claim C9 counterexample: a 32-word text with `chunk_size = 30`,
`overlap = 25` produces three chunks whose word counts are 30, 27, 22:
the middle chunk — not the last — has 27 ≠ 30 words, contradicting
"every chunk except possibly the last contains exactly chunk_size
words" (and its overlap with the final chunk is 22 words, not 25). -/
theorem c9_counterexample :
    (chunk_text (textW 32) 30 25).length = 3 ∧
    wordCount ((chunk_text (textW 32) 30 25).getD 1 "") = 27 ∧
    ¬ wordCount ((chunk_text (textW 32) 30 25).getD 1 "") = 30 := by
  exact ⟨by decide, by decide, by decide⟩

end GM
